import Mathlib

/-
  Verification development for the SU2 turbulence solver core
  (src/SU2_CFD/src/solution_direct_turbulent.cpp), a shallow embedding of
  the per-edge residual/Jacobian assembly, boundary conditions, restart
  construction, halo exchange protocol and the implicit Euler iteration.

  Machine doubles are modelled by real numbers; per-point arrays of width
  nVar are modelled by functions from variable index to real (or by lists
  where bounds-checking is the subject of a claim).  Mutation is explicit
  state passing on a solver-state structure.
-/

namespace SU2Turb

/-- Per-point turbulence variable storage (class CTurbVariable / CVariable):
current solution, old solution, residual accumulator, and the gradient
tensor indexed by (variable, spatial dimension). -/
structure TurbNode where
  solution : ℕ → ℝ
  solution_old : ℕ → ℝ
  residual : ℕ → ℝ
  gradient : ℕ → ℕ → ℝ

/-- A (nVar × nVar) Jacobian block, indexed by (row variable, column variable). -/
def Block : Type := ℕ → ℕ → ℝ

/-- The per-model solver state visible to the assembly loops: one node per
point index and the block-sparse Jacobian indexed by (row point, column
point). -/
structure TurbSolverState where
  node : ℕ → TurbNode
  jacobian : ℕ → ℕ → Block

/-- Pointwise function update at a natural-number key. -/
def updAt {α : Type} (g : ℕ → α) (p : ℕ) (a : α) : ℕ → α :=
  fun q => if q = p then a else g q

theorem updAt_same {α : Type} (g : ℕ → α) (p : ℕ) (a : α) : updAt g p a p = a := by
  simp [updAt]

theorem updAt_other {α : Type} (g : ℕ → α) (p q : ℕ) (a : α) (h : q ≠ p) :
    updAt g p a q = g q := by
  simp [updAt, h]

/-- Update the node of point p in place, leaving the Jacobian and all other
nodes unchanged. -/
def updNode (s : TurbSolverState) (p : ℕ) (f : TurbNode → TurbNode) : TurbSolverState :=
  { s with node := updAt s.node p (f (s.node p)) }

/-- node[iPoint]->AddResidual(Residual): adds the kernel residual into the
point's residual accumulator, componentwise. -/
def AddResidual (s : TurbSolverState) (p : ℕ) (R : ℕ → ℝ) : TurbSolverState :=
  updNode s p (fun nd => { nd with residual := fun v => nd.residual v + R v })

/-- node[jPoint]->SubtractResidual(Residual). -/
def SubtractResidual (s : TurbSolverState) (p : ℕ) (R : ℕ → ℝ) : TurbSolverState :=
  updNode s p (fun nd => { nd with residual := fun v => nd.residual v - R v })

/-- Jacobian.AddBlock(i, j, B): adds block B into the matrix entry (i, j). -/
def AddBlock (s : TurbSolverState) (i j : ℕ) (B : Block) : TurbSolverState :=
  { s with jacobian := fun r c => if r = i ∧ c = j
      then (fun v w => s.jacobian r c v w + B v w) else s.jacobian r c }

/-- Jacobian.SubtractBlock(i, j, B). -/
def SubtractBlock (s : TurbSolverState) (i j : ℕ) (B : Block) : TurbSolverState :=
  { s with jacobian := fun r c => if r = i ∧ c = j
      then (fun v w => s.jacobian r c v w - B v w) else s.jacobian r c }

/-- The accumulation step of CTurbSASolution::Upwind_Residual (and the
textually identical CTurbSSTSolution::Upwind_Residual) for one edge
(iPoint, jPoint), given the kernel outputs Residual, Jacobian_i,
Jacobian_j of solver->SetResidual:
residual added at iPoint, subtracted at jPoint; blocks added at (i,i) and
(i,j), subtracted at (j,i) and (j,j). -/
def Upwind_Residual_edge (s : TurbSolverState) (iPoint jPoint : ℕ)
    (Residual : ℕ → ℝ) (Jacobian_i Jacobian_j : Block) : TurbSolverState :=
  SubtractBlock
    (SubtractBlock
      (AddBlock
        (AddBlock
          (SubtractResidual (AddResidual s iPoint Residual) jPoint Residual)
          iPoint iPoint Jacobian_i)
        iPoint jPoint Jacobian_j)
      jPoint iPoint Jacobian_i)
    jPoint jPoint Jacobian_j

/-- The accumulation step of CTurbSASolution::Viscous_Residual (and the
textually identical CTurbSSTSolution::Viscous_Residual) for one edge:
residual subtracted at iPoint, added at jPoint; blocks subtracted at
(i,i) and (i,j), added at (j,i) and (j,j). -/
def Viscous_Residual_edge (s : TurbSolverState) (iPoint jPoint : ℕ)
    (Residual : ℕ → ℝ) (Jacobian_i Jacobian_j : Block) : TurbSolverState :=
  AddBlock
    (AddBlock
      (SubtractBlock
        (SubtractBlock
          (AddResidual (SubtractResidual s iPoint Residual) jPoint Residual)
          iPoint iPoint Jacobian_i)
        iPoint jPoint Jacobian_j)
      jPoint iPoint Jacobian_i)
    jPoint jPoint Jacobian_j

/-- A solver state with all storage zeroed, used as a base point for
concrete evaluations. -/
def zeroState : TurbSolverState :=
  { node := fun _ =>
      { solution := fun _ => 0
        solution_old := fun _ => 0
        residual := fun _ => 0
        gradient := fun _ _ => 0 }
    jacobian := fun _ _ _ _ => 0 }

/-- The sign pattern the spec asserts for every edge-based assembly loop:
relative to the pre-state s, the kernel residual is added at iPoint and
subtracted at jPoint, and the Jacobian blocks are added into entries
(i,i) and (i,j) and subtracted from (j,i) and (j,j). -/
def SpecEdgeSigns (s u : TurbSolverState) (i j : ℕ) (R : ℕ → ℝ)
    (Ji Jj : Block) : Prop :=
  ∀ v w : ℕ,
    (u.node i).residual v = (s.node i).residual v + R v ∧
    (u.node j).residual v = (s.node j).residual v - R v ∧
    u.jacobian i i v w = s.jacobian i i v w + Ji v w ∧
    u.jacobian i j v w = s.jacobian i j v w + Jj v w ∧
    u.jacobian j i v w = s.jacobian j i v w - Ji v w ∧
    u.jacobian j j v w = s.jacobian j j v w - Jj v w

/-- The sign pattern the viscous loops actually implement: residual
subtracted at iPoint and added at jPoint, Jacobian blocks subtracted at
(i,i),(i,j) and added at (j,i),(j,j). -/
def ViscousEdgeSigns (s u : TurbSolverState) (i j : ℕ) (R : ℕ → ℝ)
    (Ji Jj : Block) : Prop :=
  ∀ v w : ℕ,
    (u.node i).residual v = (s.node i).residual v - R v ∧
    (u.node j).residual v = (s.node j).residual v + R v ∧
    u.jacobian i i v w = s.jacobian i i v w - Ji v w ∧
    u.jacobian i j v w = s.jacobian i j v w - Jj v w ∧
    u.jacobian j i v w = s.jacobian j i v w + Ji v w ∧
    u.jacobian j j v w = s.jacobian j j v w + Jj v w

/-- Flux antisymmetry: the residual deltas the assembly step leaves on the
two endpoints are additive inverses of each other. -/
def AntisymmetricResidualDeltas (s u : TurbSolverState) (i j : ℕ) : Prop :=
  ∀ v : ℕ,
    (u.node i).residual v - (s.node i).residual v
      = -((u.node j).residual v - (s.node j).residual v)

theorem node_AddBlock (s : TurbSolverState) (i j : ℕ) (B : Block) :
    (AddBlock s i j B).node = s.node := rfl

theorem node_SubtractBlock (s : TurbSolverState) (i j : ℕ) (B : Block) :
    (SubtractBlock s i j B).node = s.node := rfl

theorem jacobian_AddResidual (s : TurbSolverState) (p : ℕ) (R : ℕ → ℝ) :
    (AddResidual s p R).jacobian = s.jacobian := rfl

theorem jacobian_SubtractResidual (s : TurbSolverState) (p : ℕ) (R : ℕ → ℝ) :
    (SubtractResidual s p R).jacobian = s.jacobian := rfl

/-- C1: the claimed sign pattern fails on the viscous loop: on the edge
(0,1) of the zero state with unit kernel residual, the viscous assembly
leaves residual -1 at point 0, not +1 as the claim states. -/
theorem claim_C1_counterexample :
    ¬ SpecEdgeSigns zeroState
        (Viscous_Residual_edge zeroState 0 1 (fun _ => 1)
          (fun _ _ => 0) (fun _ _ => 0)) 0 1 (fun _ => 1)
        (fun _ _ => 0) (fun _ _ => 0) := by
  intro h
  have h0 := (h 0 0).1
  simp [Viscous_Residual_edge, AddResidual, SubtractResidual, AddBlock,
    SubtractBlock, updNode, updAt, zeroState, SpecEdgeSigns] at h0
  norm_num at h0

/-- C1 (amended): for every edge (i,j) with distinct endpoints and any
kernel outputs, the upwind loop follows the claimed sign pattern
(+i, -j; +(i,i), +(i,j), -(j,i), -(j,j)) while the viscous loop follows
the opposite pattern (-i, +j; -(i,i), -(i,j), +(j,i), +(j,j)); in both
loops the residual contributions on the two endpoints are additive
inverses. -/
theorem claim_C1_edge_assembly_signs (s : TurbSolverState) (i j : ℕ)
    (R : ℕ → ℝ) (Ji Jj : Block) (hij : i ≠ j) :
    SpecEdgeSigns s (Upwind_Residual_edge s i j R Ji Jj) i j R Ji Jj ∧
    ViscousEdgeSigns s (Viscous_Residual_edge s i j R Ji Jj) i j R Ji Jj ∧
    AntisymmetricResidualDeltas s (Upwind_Residual_edge s i j R Ji Jj) i j ∧
    AntisymmetricResidualDeltas s (Viscous_Residual_edge s i j R Ji Jj) i j := by
  have hji : j ≠ i := Ne.symm hij
  refine ⟨fun v w => ?_, fun v w => ?_, fun v => ?_, fun v => ?_⟩ <;>
    simp [Upwind_Residual_edge, Viscous_Residual_edge, AddResidual,
      SubtractResidual, AddBlock, SubtractBlock, updNode, updAt, hij, hji,
      SpecEdgeSigns, ViscousEdgeSigns, AntisymmetricResidualDeltas]

/-- Witness for C1 at the concrete edge (0,1) on the zero state. -/
theorem claim_C1_edge_assembly_signs_witness :
    (0 : ℕ) ≠ 1 ∧
    (SpecEdgeSigns zeroState
        (Upwind_Residual_edge zeroState 0 1 (fun _ => 1) (fun _ _ => 2)
          (fun _ _ => 3)) 0 1 (fun _ => 1) (fun _ _ => 2) (fun _ _ => 3) ∧
      ViscousEdgeSigns zeroState
        (Viscous_Residual_edge zeroState 0 1 (fun _ => 1) (fun _ _ => 2)
          (fun _ _ => 3)) 0 1 (fun _ => 1) (fun _ _ => 2) (fun _ _ => 3) ∧
      AntisymmetricResidualDeltas zeroState
        (Upwind_Residual_edge zeroState 0 1 (fun _ => 1) (fun _ _ => 2)
          (fun _ _ => 3)) 0 1 ∧
      AntisymmetricResidualDeltas zeroState
        (Viscous_Residual_edge zeroState 0 1 (fun _ => 1) (fun _ _ => 2)
          (fun _ _ => 3)) 0 1) :=
  ⟨by decide,
    claim_C1_edge_assembly_signs zeroState 0 1 (fun _ => 1) (fun _ _ => 2)
      (fun _ _ => 3) (by decide)⟩

/-- Jacobian.DeleteValsRowi(iPoint): zeroes every block of matrix row
iPoint and puts an identity block on the diagonal entry (iPoint, iPoint)
("includes 1 in the diagonal"). -/
def DeleteValsRowi (s : TurbSolverState) (p : ℕ) : TurbSolverState :=
  { s with jacobian := fun r c =>
      if r = p then (fun v w => if c = p ∧ v = w then 1 else 0)
      else s.jacobian r c }

/-- node[iPoint]->SetResidualZero(). -/
def SetResidualZero (s : TurbSolverState) (p : ℕ) : TurbSolverState :=
  updNode s p (fun nd => { nd with residual := fun _ => 0 })

/-- node[iPoint]->SetSolution_Old(vals): copies the first nVar entries of
vals into the point's old-solution storage. -/
def SetSolution_Old (nVar : ℕ) (s : TurbSolverState) (p : ℕ)
    (vals : ℕ → ℝ) : TurbSolverState :=
  updNode s p (fun nd =>
    { nd with solution_old := fun v => if v < nVar then vals v else nd.solution_old v })

/-- One iteration of the BC_NS_Wall vertex loop: the scratch Solution
vector is zeroed, written into the point's old solution, the residual is
zeroed and the Jacobian row deleted. -/
def wallStep (nVar : ℕ) (s : TurbSolverState) (p : ℕ) : TurbSolverState :=
  DeleteValsRowi (SetResidualZero (SetSolution_Old nVar s p (fun _ => 0)) p) p

/-- CTurbSASolution::BC_NS_Wall and CTurbSSTSolution::BC_NS_Wall (the two
bodies are textually identical): iterate the marker's vertex points.
vertices lists geometry->vertex[val_marker][iVertex]->GetNode() in vertex
order. -/
def BC_NS_Wall (nVar : ℕ) (vertices : List ℕ) (s : TurbSolverState) :
    TurbSolverState :=
  vertices.foldl (wallStep nVar) s

/-- CTurbSolution::BC_InterProcessor: on a receive-side marker
(SendRecv < 0) zero each vertex point's residual and delete its Jacobian
row (DeleteValsRowi is invoked once per variable index); otherwise do
nothing. -/
def BC_InterProcessor (nVar : ℕ) (sendRecv : ℤ) (vertices : List ℕ)
    (s : TurbSolverState) : TurbSolverState :=
  if sendRecv < 0 then
    vertices.foldl (fun s p =>
      (List.range nVar).foldl (fun s _ => DeleteValsRowi s p)
        (SetResidualZero s p)) s
  else s

/-- CTurbSolution::BC_Sym_Plane has an empty body in the source: the call
returns without touching any solver state. -/
def BC_Sym_Plane (s : TurbSolverState) : TurbSolverState := s

/- Generic lemmas about vertex-loop folds. -/

theorem foldl_pres {α ι : Type} {step : α → ι → α} {Good : α → ι → Prop}
    (hpres : ∀ s p q, Good s q → Good (step s p) q) :
    ∀ (l : List ι) (s : α) (q : ι), Good s q → Good (l.foldl step s) q := by
  intro l
  induction l with
  | nil => intro s q h; simpa using h
  | cons a t ih =>
      intro s q h
      simpa using ih (step s a) q (hpres s a q h)

theorem foldl_good {α ι : Type} {step : α → ι → α} {Good : α → ι → Prop}
    (hmake : ∀ s p, Good (step s p) p)
    (hpres : ∀ s p q, Good s q → Good (step s p) q) :
    ∀ (l : List ι) (s : α) (p : ι), p ∈ l → Good (l.foldl step s) p := by
  intro l
  induction l with
  | nil => intro s p h; simp at h
  | cons a t ih =>
      intro s p hp
      rcases List.mem_cons.mp hp with h | h
      · subst h
        simpa using foldl_pres hpres t (step s p) p (hmake s p)
      · simpa using ih (step s a) p h

theorem foldl_frame {α β ι : Type} {step : α → ι → α} (proj : α → β)
    (h : ∀ s p, proj (step s p) = proj s) :
    ∀ (l : List ι) (s : α), proj (l.foldl step s) = proj s := by
  intro l
  induction l with
  | nil => intro s; rfl
  | cons a t ih => intro s; simpa [h] using ih (step s a)

/-- The state of a wall point after assembleBoundary on a wall marker, as
the code realises it: the Dirichlet zero sits in the old-solution
storage, the residual accumulator is exactly zero, and the Jacobian row
is deleted (identity block on the diagonal, zero elsewhere). -/
def WallPointClamped (nVar : ℕ) (s : TurbSolverState) (p : ℕ) : Prop :=
  (∀ v, v < nVar → (s.node p).solution_old v = 0) ∧
  (∀ v, (s.node p).residual v = 0) ∧
  (∀ c v w, s.jacobian p c v w = if c = p ∧ v = w then 1 else 0)

theorem wallStep_make (nVar : ℕ) (s : TurbSolverState) (p : ℕ) :
    WallPointClamped nVar (wallStep nVar s p) p := by
  refine ⟨fun v hv => ?_, fun v => ?_, fun c v w => ?_⟩
  · simp [wallStep, DeleteValsRowi, SetResidualZero, SetSolution_Old,
      updNode, updAt, hv]
  · simp [wallStep, DeleteValsRowi, SetResidualZero, SetSolution_Old,
      updNode, updAt]
  · simp [wallStep, DeleteValsRowi, SetResidualZero, SetSolution_Old,
      updNode, updAt]

theorem wallStep_pres (nVar : ℕ) (s : TurbSolverState) (p q : ℕ)
    (h : WallPointClamped nVar s q) : WallPointClamped nVar (wallStep nVar s p) q := by
  by_cases hpq : q = p
  · subst hpq; exact wallStep_make nVar s q
  · refine ⟨fun v hv => ?_, fun v => ?_, fun c v w => ?_⟩ <;>
      simp [wallStep, DeleteValsRowi, SetResidualZero, SetSolution_Old,
        updNode, updAt, hpq] <;>
      first
        | exact h.1 v hv
        | exact h.2.1 v
        | exact h.2.2 c v w

theorem wallStep_solution (nVar : ℕ) (s : TurbSolverState) (p : ℕ) :
    (fun q => ((wallStep nVar s p).node q).solution) = fun q => ((s.node q).solution) := by
  funext q
  by_cases hpq : q = p <;>
    simp [wallStep, DeleteValsRowi, SetResidualZero, SetSolution_Old,
      updNode, updAt, hpq]

/-- A state with a nonzero current solution at point 0, to exhibit that
BC_NS_Wall does not touch the current solution. -/
def wallTestState : TurbSolverState :=
  updNode zeroState 0 (fun nd => { nd with solution := fun _ => 5 })

/-- C2: the claim fails as stated: after BC_NS_Wall on a marker whose only
vertex is point 0, the point's (current) turbulence solution is still 5,
not the Dirichlet value zero — only the old-solution storage is set. -/
theorem claim_C2_counterexample :
    ((BC_NS_Wall 1 [0] wallTestState).node 0).solution 0 ≠ 0 := by
  simp [BC_NS_Wall, wallStep, DeleteValsRowi, SetResidualZero,
    SetSolution_Old, updNode, updAt, wallTestState, zeroState]

/-- C2 (amended): after BC_NS_Wall on a wall marker, every vertex point of
that marker has the Dirichlet value zero written into its old-solution
storage (node->SetSolution_Old), its residual accumulator exactly zero,
and its Jacobian row deleted (replaced by an identity diagonal block);
the current solution of every point is left unchanged. -/
theorem claim_C2_wall_clamp (nVar : ℕ) (vertices : List ℕ)
    (s : TurbSolverState) (p : ℕ) (hp : p ∈ vertices) :
    WallPointClamped nVar (BC_NS_Wall nVar vertices s) p ∧
    (∀ q v, ((BC_NS_Wall nVar vertices s).node q).solution v
      = (s.node q).solution v) := by
  constructor
  · exact foldl_good (wallStep_make nVar) (wallStep_pres nVar) vertices s p hp
  · intro q v
    have := foldl_frame (fun s : TurbSolverState => fun q => ((s.node q).solution))
      (wallStep_solution nVar) vertices s
    exact congrFun (congrFun this q) v

/-- Witness for C2 at the one-vertex marker [0] on wallTestState. -/
theorem claim_C2_wall_clamp_witness :
    (0 : ℕ) ∈ [0] ∧
    (WallPointClamped 1 (BC_NS_Wall 1 [0] wallTestState) 0 ∧
      (∀ q v, ((BC_NS_Wall 1 [0] wallTestState).node q).solution v
        = (wallTestState.node q).solution v)) :=
  ⟨by decide, claim_C2_wall_clamp 1 [0] wallTestState 0 (by decide)⟩

/-- One iteration of the BC_InterProcessor receive-side vertex loop. -/
def ipStep (nVar : ℕ) (s : TurbSolverState) (p : ℕ) : TurbSolverState :=
  (List.range nVar).foldl (fun s _ => DeleteValsRowi s p) (SetResidualZero s p)

theorem BC_InterProcessor_eq_foldl (nVar : ℕ) (sendRecv : ℤ)
    (vertices : List ℕ) (s : TurbSolverState) (h : sendRecv < 0) :
    BC_InterProcessor nVar sendRecv vertices s = vertices.foldl (ipStep nVar) s := by
  simp only [BC_InterProcessor, if_pos h]
  rfl

/-- The state of a receive-side interprocessor point after
BC_InterProcessor: residual exactly zero and Jacobian row deleted. -/
def IPReceiveCleared (s : TurbSolverState) (p : ℕ) : Prop :=
  (∀ v, (s.node p).residual v = 0) ∧
  (∀ c v w, s.jacobian p c v w = if c = p ∧ v = w then 1 else 0)

theorem node_DeleteValsRowi (s : TurbSolverState) (p : ℕ) :
    (DeleteValsRowi s p).node = s.node := rfl

theorem ipStep_node (nVar : ℕ) (s : TurbSolverState) (p : ℕ) :
    (ipStep nVar s p).node = (SetResidualZero s p).node := by
  simpa [ipStep] using
    foldl_frame (fun s : TurbSolverState => s.node)
      (fun s (_ : ℕ) => node_DeleteValsRowi s p) (List.range nVar)
      (SetResidualZero s p)

theorem ipStep_jacobian_other (nVar : ℕ) (s : TurbSolverState) (p r : ℕ)
    (hr : r ≠ p) : (ipStep nVar s p).jacobian r = s.jacobian r := by
  simpa [ipStep, SetResidualZero, updNode] using
    foldl_frame (fun s : TurbSolverState => s.jacobian r)
      (fun s (_ : ℕ) => by simp [DeleteValsRowi, hr]) (List.range nVar)
      (SetResidualZero s p)

theorem ipStep_make (nVar : ℕ) (hn : 0 < nVar) (s : TurbSolverState) (p : ℕ) :
    IPReceiveCleared (ipStep nVar s p) p := by
  constructor
  · intro v
    rw [ipStep_node]
    simp [SetResidualZero, updNode, updAt]
  · intro c v w
    obtain ⟨m, rfl⟩ : ∃ m, nVar = m + 1 := ⟨nVar - 1, (Nat.succ_pred_eq_of_pos hn).symm⟩
    simp [ipStep, List.range_succ, DeleteValsRowi]

theorem ipStep_pres (nVar : ℕ) (hn : 0 < nVar) (s : TurbSolverState) (p q : ℕ)
    (h : IPReceiveCleared s q) : IPReceiveCleared (ipStep nVar s p) q := by
  by_cases hpq : q = p
  · subst hpq; exact ipStep_make nVar hn s q
  · constructor
    · intro v
      rw [ipStep_node]
      simpa [SetResidualZero, updNode, updAt, hpq] using h.1 v
    · intro c v w
      rw [ipStep_jacobian_other nVar s p q hpq]
      exact h.2 c v w

/-- C7: on a receive-side marker (negative send-receive tag),
BC_InterProcessor zeroes the residual of every vertex point of the marker
and deletes its Jacobian row; on a send-side marker (positive tag) it
modifies no solver state at all. -/
theorem claim_C7_interprocessor (nVar : ℕ) (sendRecv : ℤ)
    (vertices : List ℕ) (s : TurbSolverState) :
    (sendRecv < 0 → 0 < nVar → ∀ p ∈ vertices,
      IPReceiveCleared (BC_InterProcessor nVar sendRecv vertices s) p) ∧
    (0 < sendRecv → BC_InterProcessor nVar sendRecv vertices s = s) := by
  constructor
  · intro hneg hn p hp
    rw [BC_InterProcessor_eq_foldl nVar sendRecv vertices s hneg]
    exact foldl_good (ipStep_make nVar hn) (ipStep_pres nVar hn) vertices s p hp
  · intro hpos
    simp [BC_InterProcessor, not_lt.mpr (le_of_lt hpos)]

/-- Witness for C7: receive tag -2 clears point 0; send tag 3 is a no-op. -/
theorem claim_C7_interprocessor_witness :
    IPReceiveCleared (BC_InterProcessor 1 (-2) [0] zeroState) 0 ∧
    BC_InterProcessor 1 3 [0] zeroState = zeroState :=
  ⟨(claim_C7_interprocessor 1 (-2) [0] zeroState).1 (by decide) (by decide) 0
      (by decide),
    (claim_C7_interprocessor 1 3 [0] zeroState).2 (by decide)⟩

/-- C9: BC_Sym_Plane performs no operation: every point's solution, old
solution, residual, gradient, and every Jacobian entry are unchanged. -/
theorem claim_C9_sym_plane_noop (s : TurbSolverState) :
    ∀ p c v w, ((BC_Sym_Plane s).node p).solution v = (s.node p).solution v ∧
      ((BC_Sym_Plane s).node p).solution_old v = (s.node p).solution_old v ∧
      ((BC_Sym_Plane s).node p).residual v = (s.node p).residual v ∧
      ((BC_Sym_Plane s).node p).gradient v c = (s.node p).gradient v c ∧
      (BC_Sym_Plane s).jacobian p c v w = s.jacobian p c v w :=
  fun _ _ _ _ => ⟨rfl, rfl, rfl, rfl, rfl⟩

/-- Reading the per-point state value from one restart line: both
constructors stream the point index, then nDim+2 throwaway columns
(dull_val), then Solution[0]; that is token position nDim+3 of the line
(2-D: position 5, 3-D: position 6). -/
def readRestartValue (nDim : ℕ) (line : List ℝ) : ℝ := line.getD (nDim + 3) 0

/-- Outcome of a solution constructor: either the fatal missing-file error
(the source prints the message and calls exit(1)) or the per-point state
vectors, point index to state. -/
def CtorResult : Type := Except String (ℕ → List ℝ)

/-- CTurbSASolution::CTurbSASolution: with restart enabled and the file
open (some lines), point i's width-1 state is read from line i; with the
file failing to open (none), the run terminates with the printed error.
Without restart, every point gets the freestream value (nu_tilde_Inf, or
Density_Inf*nu_tilde_Inf for the SA_COMP variant). -/
def CTurbSASolution_ctor (restart saComp : Bool) (nDim nPoint : ℕ)
    (nu_tilde_Inf Density_Inf : ℝ) (file : Option (List (List ℝ))) :
    CtorResult :=
  if restart then
    match file with
    | none => .error "There is no turbulent restart file!!"
    | some lines => .ok (fun i => [readRestartValue nDim (lines.getD i [])])
  else
    .ok (fun _ => if saComp then [Density_Inf * nu_tilde_Inf] else [nu_tilde_Inf])

/-- CTurbSSTSolution::CTurbSSTSolution: with restart enabled and the file
open, point i's width-2 state is (value read from line i, 0) — the
constructor call is CTurbSSTVariable(Solution[0], 0, ...), so the second
component is the constant 0, not a file column.  A missing file is the
same fatal error.  Without restart, every point gets
(Density_Inf*kine_Inf, Density_Inf*omega_Inf). -/
def CTurbSSTSolution_ctor (restart : Bool) (nDim nPoint : ℕ)
    (kine_Inf omega_Inf Density_Inf : ℝ) (file : Option (List (List ℝ))) :
    CtorResult :=
  if restart then
    match file with
    | none => .error "There is no turbulent restart file!!"
    | some lines => .ok (fun i => [readRestartValue nDim (lines.getD i []), 0])
  else
    .ok (fun _ => [Density_Inf * kine_Inf, Density_Inf * omega_Inf])

/-- The state vector the constructor gave point i (empty on the error
outcome, where no solution object exists at all). -/
def ctorNode (r : CtorResult) (i : ℕ) : List ℝ :=
  match r with
  | .ok f => f i
  | .error _ => []

/-- Modelled from the spec: the restart/checkpoint writer is not part of
src/ (only the readers are).  Spec: "plain columnar text, one line per
point, first column = global point index, followed by coordinate/flow
columns, final column(s) = the model's solution components". -/
def writeRestartLine (idx : ℝ) (middle stateComponents : List ℝ) : List ℝ :=
  idx :: (middle ++ stateComponents)

/-- Modelled from the spec: the whole restart file, one line per point in
point index order. -/
def writeRestartFile (nPoint : ℕ) (idx : ℕ → ℝ) (middle : ℕ → List ℝ)
    (state : ℕ → List ℝ) : List (List ℝ) :=
  (List.range nPoint).map (fun i => writeRestartLine (idx i) (middle i) (state i))

theorem readRestartValue_write (nDim : ℕ) (idx : ℝ) (middle st : List ℝ)
    (hm : middle.length = nDim + 2) :
    readRestartValue nDim (writeRestartLine idx middle st) = st.getD 0 0 := by
  simp only [readRestartValue, writeRestartLine, List.getD]
  rw [List.get?_cons_succ, List.get?_append_right (by omega)]
  simp [hm]

theorem writeRestartFile_line (nPoint : ℕ) (idx : ℕ → ℝ)
    (middle : ℕ → List ℝ) (state : ℕ → List ℝ) (i : ℕ) (hi : i < nPoint) :
    (writeRestartFile nPoint idx middle state).getD i []
      = writeRestartLine (idx i) (middle i) (state i) := by
  simp [writeRestartFile, List.getD, List.getElem?_map, List.getElem?_range, hi]

/-- C3: the round trip fails as stated: for the SST model (state width 2)
with a one-point 2-D restart file whose final solution columns are
(4, 5), the constructed point state is (4, 0) — the second component is
never read from the file. -/
theorem claim_C3_counterexample :
    ctorNode (CTurbSSTSolution_ctor true 2 1 0 0 0
        (some (writeRestartFile 1 (fun i => (i : ℝ)) (fun _ => [9, 9, 9, 9])
          (fun _ => [4, 5])))) 0 ≠ [4, 5] := by
  have h : ctorNode (CTurbSSTSolution_ctor true 2 1 0 0 0
      (some (writeRestartFile 1 (fun i => (i : ℝ)) (fun _ => [9, 9, 9, 9])
        (fun _ => [4, 5])))) 0 = [4, 0] := by
    have h0 : ctorNode (CTurbSSTSolution_ctor true 2 1 0 0 0
        (some (writeRestartFile 1 (fun i => (i : ℝ)) (fun _ => [9, 9, 9, 9])
          (fun _ => [4, 5])))) 0
        = [readRestartValue 2 ((writeRestartFile 1 (fun i => (i : ℝ))
            (fun _ => [9, 9, 9, 9]) (fun _ => [4, 5])).getD 0 []), 0] := rfl
    rw [h0, writeRestartFile_line 1 (fun i => (i : ℝ)) (fun _ => [9, 9, 9, 9])
        (fun _ => [4, 5]) 0 (by decide),
      readRestartValue_write 2 (((0 : ℕ) : ℝ)) [9, 9, 9, 9] [4, 5] rfl]
    simp [List.getD]
  rw [h]
  intro hc
  have := List.head_eq_of_cons_eq (List.tail_eq_of_cons_eq hc)
  norm_num at this

/-- C3 (amended): with restart enabled both constructors read the file
sequentially, one line per point in point index order.  The SA
constructor initializes its full width-1 state from the line's final
solution column, so the SA round trip reproduces the state exactly; the
SST constructor reads only the first of its two components from the file
and initializes the second component to the constant zero, so the SST
round trip reproduces only the first component. -/
theorem claim_C3_restart_roundtrip (nDim nPoint : ℕ) (idx : ℕ → ℝ)
    (middle : ℕ → List ℝ) (saComp : Bool) (nu ρ k ω : ℝ)
    (saState : ℕ → ℝ) (sstState : ℕ → ℝ × ℝ) (i : ℕ)
    (hm : ∀ j, (middle j).length = nDim + 2) (hi : i < nPoint) :
    ctorNode (CTurbSASolution_ctor true saComp nDim nPoint nu ρ
        (some (writeRestartFile nPoint idx middle (fun j => [saState j])))) i
      = [saState i] ∧
    ctorNode (CTurbSSTSolution_ctor true nDim nPoint k ω ρ
        (some (writeRestartFile nPoint idx middle
          (fun j => [(sstState j).1, (sstState j).2])))) i
      = [(sstState i).1, 0] := by
  constructor
  · have h0 : ctorNode (CTurbSASolution_ctor true saComp nDim nPoint nu ρ
        (some (writeRestartFile nPoint idx middle (fun j => [saState j])))) i
        = [readRestartValue nDim
            ((writeRestartFile nPoint idx middle (fun j => [saState j])).getD i [])] :=
      rfl
    rw [h0, writeRestartFile_line nPoint idx middle (fun j => [saState j]) i hi,
      readRestartValue_write nDim (idx i) (middle i) [saState i] (hm i)]
    simp [List.getD]
  · have h0 : ctorNode (CTurbSSTSolution_ctor true nDim nPoint k ω ρ
        (some (writeRestartFile nPoint idx middle
          (fun j => [(sstState j).1, (sstState j).2])))) i
        = [readRestartValue nDim
            ((writeRestartFile nPoint idx middle
              (fun j => [(sstState j).1, (sstState j).2])).getD i []), 0] :=
      rfl
    rw [h0, writeRestartFile_line nPoint idx middle
        (fun j => [(sstState j).1, (sstState j).2]) i hi,
      readRestartValue_write nDim (idx i) (middle i)
        [(sstState i).1, (sstState i).2] (hm i)]
    simp [List.getD]

/-- Witness for C3 on a concrete one-point 2-D file. -/
theorem claim_C3_restart_roundtrip_witness :
    (∀ j : ℕ, (([9, 9, 9, 9] : List ℝ)).length = 2 + 2) ∧ 0 < 1 ∧
    (ctorNode (CTurbSASolution_ctor true false 2 1 0 0
        (some (writeRestartFile 1 (fun i => (i : ℝ)) (fun _ => [9, 9, 9, 9])
          (fun j => [(7 : ℝ)])))) 0 = [(7 : ℝ)] ∧
      ctorNode (CTurbSSTSolution_ctor true 2 1 0 0 0
        (some (writeRestartFile 1 (fun i => (i : ℝ)) (fun _ => [9, 9, 9, 9])
          (fun j => [((4, 5) : ℝ × ℝ).1, ((4, 5) : ℝ × ℝ).2])))) 0
        = [((4, 5) : ℝ × ℝ).1, 0]) :=
  ⟨fun _ => rfl, by decide,
    claim_C3_restart_roundtrip 2 1 (fun i => (i : ℝ)) (fun _ => [9, 9, 9, 9])
      false 0 0 0 0 (fun _ => 7) (fun _ => (4, 5)) 0 (fun _ => rfl) (by decide)⟩

/-- C8: if restart is enabled and the restart file cannot be opened
(restart_file.fail(), modelled as file = none), both constructors
terminate with the fatal error message; the error outcome carries no node
state, so no partially-initialized solution is left in use. -/
theorem claim_C8_missing_restart_fatal (saComp : Bool) (nDim nPoint : ℕ)
    (nu k ω ρ : ℝ) :
    CTurbSASolution_ctor true saComp nDim nPoint nu ρ none
      = .error "There is no turbulent restart file!!" ∧
    CTurbSSTSolution_ctor true nDim nPoint k ω ρ none
      = .error "There is no turbulent restart file!!" := ⟨rfl, rfl⟩

/-- Checked (Option-returning) write into an array modelled as a list:
Solution_j[i] = v; none when i is out of bounds. -/
def setChecked (xs : List ℝ) (i : ℕ) (v : ℝ) : Option (List ℝ) :=
  if i < xs.length then some (xs.set i v) else none

/-- Checked (Option-returning) read node->GetSolution(i). -/
def getChecked (xs : List ℝ) (i : ℕ) : Option ℝ := xs[i]?

/-- The copy loop `for (iVar = 0; iVar < nVar; iVar++) Solution_i[iVar] =
node[iPoint]->GetSolution(iVar);` shared by BC_Inlet and BC_Outlet of the
SA solver, with the loop counter kept explicit because the statement
after the loop reuses it. -/
def turbVarCopyLoop (nVar : ℕ) (sol si : List ℝ) : ℕ × List ℝ :=
  (List.range nVar).foldl
    (fun st iVar => (iVar + 1, st.2.set iVar (sol.getD iVar 0))) (0, si)

/-- The turbulent-variable section of CTurbSASolution::BC_Inlet (lines
646-649): the copy loop, then `Solution_j[iVar] = nu_tilde_Inf;` where
iVar is the counter left by the loop, under checked indexing. -/
def BC_Inlet_turbSection (nVar : ℕ) (sol si sj : List ℝ)
    (nu_tilde_Inf : ℝ) : Option (List ℝ × List ℝ) :=
  (setChecked sj (turbVarCopyLoop nVar sol si).1 nu_tilde_Inf).map
    (fun sjn => ((turbVarCopyLoop nVar sol si).2, sjn))

/-- The turbulent-variable section of CTurbSASolution::BC_Outlet (lines
681-684): the copy loop, then `Solution_j[iVar] =
node[iPoint]->GetSolution(iVar);` with the loop-exit counter, under
checked indexing for both the read and the write. -/
def BC_Outlet_turbSection (nVar : ℕ) (sol si sj : List ℝ) :
    Option (List ℝ × List ℝ) :=
  (getChecked sol (turbVarCopyLoop nVar sol si).1).bind (fun x =>
    (setChecked sj (turbVarCopyLoop nVar sol si).1 x).map
      (fun sjn => ((turbVarCopyLoop nVar sol si).2, sjn)))

theorem turbVarCopyLoop_fst (nVar : ℕ) (sol si : List ℝ) :
    (turbVarCopyLoop nVar sol si).1 = nVar := by
  cases nVar with
  | zero => rfl
  | succ m => simp [turbVarCopyLoop, List.range_succ]

/-- C10: in CTurbSASolution::BC_Inlet and BC_Outlet the post-loop
assignment indexes Solution_j (and, in BC_Outlet, reads GetSolution) at
the loop-exit value iVar = nVar, one position past the last valid index
of the nVar-sized arrays; under checked indexing both sections fail with
an out-of-bounds access, and Solution_j[0] is never assigned the
intended exterior value. -/
theorem claim_C10_inlet_outlet_oob (nVar : ℕ) (sol si sj : List ℝ)
    (nu_tilde_Inf : ℝ) (hsol : sol.length = nVar) (hsj : sj.length = nVar) :
    (turbVarCopyLoop nVar sol si).1 = nVar ∧
    setChecked sj nVar nu_tilde_Inf = none ∧
    getChecked sol nVar = none ∧
    BC_Inlet_turbSection nVar sol si sj nu_tilde_Inf = none ∧
    BC_Outlet_turbSection nVar sol si sj = none := by
  have hset : setChecked sj nVar nu_tilde_Inf = none := by
    simp [setChecked, hsj]
  have hget : getChecked sol nVar = none := by
    simp [getChecked, List.getElem?_eq_none, hsol]
  refine ⟨turbVarCopyLoop_fst nVar sol si, hset, hget, ?_, ?_⟩
  · simp [BC_Inlet_turbSection, turbVarCopyLoop_fst, hset]
  · simp [BC_Outlet_turbSection, turbVarCopyLoop_fst, hget]

/-- Witness for C10 with the SA state width nVar = 1. -/
theorem claim_C10_inlet_outlet_oob_witness :
    ([(1 : ℝ) / 2] : List ℝ).length = 1 ∧ ([(7 : ℝ)] : List ℝ).length = 1 ∧
    ((turbVarCopyLoop 1 [(1 : ℝ) / 2] [0]).1 = 1 ∧
      setChecked [(7 : ℝ)] 1 2 = none ∧
      getChecked [(1 : ℝ) / 2] 1 = none ∧
      BC_Inlet_turbSection 1 [(1 : ℝ) / 2] [0] [(7 : ℝ)] 2 = none ∧
      BC_Outlet_turbSection 1 [(1 : ℝ) / 2] [0] [(7 : ℝ)] = none) :=
  ⟨rfl, rfl,
    claim_C10_inlet_outlet_oob 1 [(1 : ℝ) / 2] [0] [(7 : ℝ)] 2 rfl rfl⟩

/-- The turbulent-variable handoff of CTurbSSTSolution::BC_Far_Field
(lines 1095-1098): Solution_i is filled from the interior point; the
freestream assignment to Solution_j is commented out in the source
(`// Solution_j[0] = nu_tilde_Inf;`), so the buffer reaches
solver->SetTurbVar holding only its previous, stale contents. -/
def BC_Far_Field_SST_turbSection (nVar : ℕ) (sol si sj : List ℝ) :
    List ℝ × List ℝ :=
  ((List.range nVar).foldl (fun si iVar => si.set iVar (sol.getD iVar 0)) si, sj)

/-- The turbulent-variable handoff of CTurbSSTSolution::BC_Outlet (lines
1202-1205): the Neumann copy into Solution_j is commented out
(`// Solution_j[iVar] = nu_tilde_Inf;`), so the stale buffer is handed to
the kernel. -/
def BC_Outlet_SST_turbSection (nVar : ℕ) (sol si sj : List ℝ) :
    List ℝ × List ℝ :=
  ((List.range nVar).foldl (fun si iVar => si.set iVar (sol.getD iVar 0)) si, sj)

/-- C4: evaluation at the failing input.  With interior SST turbulence
state (1/2, 1/4), freestream value (2, 3) and stale buffer contents
(7, 8), the exterior state handed to the flux kernel by
CTurbSSTSolution::BC_Far_Field is the stale (7, 8) — neither the
freestream value nor anything computed — and CTurbSSTSolution::BC_Outlet
likewise hands over (7, 8) instead of the interior copy; in
CTurbSASolution::BC_Outlet the copy targets index nVar and is out of
bounds, so Solution_j[0] keeps its stale value as well. -/
theorem claim_C4_exterior_state_stale :
    (BC_Far_Field_SST_turbSection 2 [1 / 2, 1 / 4] [0, 0] [7, 8]).2 = [7, 8] ∧
    ([7, 8] : List ℝ) ≠ [2, 3] ∧
    (BC_Outlet_SST_turbSection 2 [1 / 2, 1 / 4] [0, 0] [7, 8]).2 = [7, 8] ∧
    ([7, 8] : List ℝ) ≠ [1 / 2, 1 / 4] ∧
    BC_Outlet_turbSection 1 [1 / 2] [0] [7] = none := by
  refine ⟨rfl, ?_, rfl, ?_, ?_⟩
  · intro h
    have := List.head_eq_of_cons_eq h
    norm_num at this
  · intro h
    have := List.head_eq_of_cons_eq h
    norm_num at this
  · simp [BC_Outlet_turbSection, turbVarCopyLoop_fst, getChecked]

/-- The state touched by CTurbSolution::ImplicitEuler_Iteration: node
residuals and solutions per (point, variable), the Residual_Max
convergence monitor per variable, the flat right-hand side and solution
vectors of the linear system, and the pseudo-time term accumulated on the
Jacobian diagonal by AddVal2Diag. -/
structure ImplicitState where
  res : ℕ → ℕ → ℝ
  sol : ℕ → ℕ → ℝ
  resMax : ℕ → ℝ
  rhs : ℕ → ℝ
  xsol : ℕ → ℝ
  jacDiag : ℕ → ℝ

/-- The reset loop: for each iVar < nVar, SetRes_Max(iVar, 0.0). -/
def resetResMax (nVar : ℕ) (s : ImplicitState) : ImplicitState :=
  { s with resMax := (List.range nVar).foldl (fun rm iVar => updAt rm iVar 0) s.resMax }

/-- One iVar iteration inside the build loop at point p: rhs[total_index]
= -Residual, xsol[total_index] = 0, and AddRes_Max(iVar,
Residual*Residual*Vol). -/
def pointVarStep (nVar : ℕ) (vol : ℕ → ℝ) (p : ℕ) (s : ImplicitState)
    (iVar : ℕ) : ImplicitState :=
  { s with
    rhs := updAt s.rhs (p * nVar + iVar) (-(s.res p iVar))
    xsol := updAt s.xsol (p * nVar + iVar) 0
    resMax := updAt s.resMax iVar
      (s.resMax iVar + s.res p iVar * s.res p iVar * vol p) }

/-- One point of the build loop: Jacobian.AddVal2Diag(iPoint, Vol/Delta_Time)
followed by the per-variable loop.  (Noncomputable only because real
division is; the source's machine division cannot be executed on ℝ.) -/
noncomputable def pointStep (nVar : ℕ) (vol dtFlow : ℕ → ℝ) (s : ImplicitState)
    (p : ℕ) : ImplicitState :=
  (List.range nVar).foldl (pointVarStep nVar vol p)
    { s with jacDiag := updAt s.jacDiag p (s.jacDiag p + vol p / dtFlow p) }

/-- One iVar iteration of the solution-update loop:
node[iPoint]->AddSolution(iVar, xsol[iPoint*nVar+iVar]). -/
def addSolutionStep (nVar : ℕ) (p : ℕ) (s : ImplicitState) (iVar : ℕ) :
    ImplicitState :=
  { s with sol := fun q u =>
      if q = p ∧ u = iVar then s.sol q u + s.xsol (p * nVar + iVar)
      else s.sol q u }

/-- CTurbSolution::ImplicitEuler_Iteration: reset the monitor, build the
implicit system over the domain points (accumulating the volume-weighted
squared residual into Res_Max), solve with the external LU_SGSIteration
(luSgs), update the solution by increments, and report
Res_Max[iVar] := sqrt(Res_Max[iVar]).  sqrtFn stands for the math
library's sqrt. -/
noncomputable def ImplicitEuler_Iteration (nVar nPointDomain : ℕ)
    (vol dtFlow : ℕ → ℝ) (sqrtFn : ℝ → ℝ)
    (luSgs : (ℕ → ℝ) → (ℕ → ℝ) → ℕ → ℝ) (s : ImplicitState) : ImplicitState :=
  let s1 := resetResMax nVar s
  let s2 := (List.range nPointDomain).foldl (pointStep nVar vol dtFlow) s1
  let s3 := { s2 with xsol := luSgs s2.rhs s2.xsol }
  let s4 := (List.range nPointDomain).foldl
    (fun s p => (List.range nVar).foldl (addSolutionStep nVar p) s) s3
  let rmFinal := (List.range nVar).foldl
    (fun rm iVar => updAt rm iVar (sqrtFn (rm iVar))) s4.resMax
  { s4 with resMax := rmFinal }

theorem range_foldl_updAt {α : Type} (g : (ℕ → α) → ℕ → α)
    (hg : ∀ rm rm' i, rm i = rm' i → g rm i = g rm' i) :
    ∀ (n : ℕ) (rm : ℕ → α) (v : ℕ),
      (List.range n).foldl (fun rm i => updAt rm i (g rm i)) rm v
        = if v < n then g rm v else rm v := by
  intro n
  induction n with
  | zero => intro rm v; simp
  | succ m ih =>
      intro rm v
      rw [List.range_succ, List.foldl_append]
      simp only [List.foldl_cons, List.foldl_nil]
      by_cases hv : v = m
      · subst hv
        rw [updAt_same]
        have hprev : (List.range v).foldl (fun rm i => updAt rm i (g rm i)) rm v
            = rm v := by
          rw [ih rm v]; simp
        rw [hg _ _ _ hprev]
        simp
      · rw [updAt_other _ _ _ _ hv, ih rm v]
        by_cases h2 : v < m
        · simp [h2, Nat.lt_succ_of_lt h2]
        · have h3 : ¬ v < m + 1 := by omega
          simp [h2, h3]

theorem pointVarStep_res (nVar : ℕ) (vol : ℕ → ℝ) (p : ℕ)
    (s : ImplicitState) (v : ℕ) : (pointVarStep nVar vol p s v).res = s.res := rfl

theorem innerFold_res (nVar : ℕ) (vol : ℕ → ℝ) (p : ℕ) (l : List ℕ)
    (s : ImplicitState) :
    (l.foldl (pointVarStep nVar vol p) s).res = s.res :=
  foldl_frame (fun s : ImplicitState => s.res)
    (fun s v => pointVarStep_res nVar vol p s v) l s

theorem innerFold_resMax (nVar : ℕ) (vol : ℕ → ℝ) (p : ℕ) :
    ∀ (l : List ℕ) (s : ImplicitState),
      (l.foldl (pointVarStep nVar vol p) s).resMax
        = l.foldl (fun rm v => updAt rm v (rm v + s.res p v * s.res p v * vol p))
            s.resMax := by
  intro l
  induction l with
  | nil => intro s; rfl
  | cons a t ih =>
      intro s
      simp only [List.foldl_cons]
      rw [ih (pointVarStep nVar vol p s a)]
      rfl

theorem pointStep_res (nVar : ℕ) (vol dtFlow : ℕ → ℝ) (s : ImplicitState)
    (p : ℕ) : (pointStep nVar vol dtFlow s p).res = s.res := by
  simp only [pointStep]
  rw [innerFold_res]

theorem pointStep_resMax (nVar : ℕ) (vol dtFlow : ℕ → ℝ)
    (s : ImplicitState) (p u : ℕ) :
    (pointStep nVar vol dtFlow s p).resMax u
      = if u < nVar then s.resMax u + s.res p u * s.res p u * vol p
        else s.resMax u := by
  simp only [pointStep]
  rw [innerFold_resMax]
  exact range_foldl_updAt (fun rm v => rm v + s.res p v * s.res p v * vol p)
    (fun rm rm' i h => by simp only [h]) nVar s.resMax u

theorem outerFold_res (nVar : ℕ) (vol dtFlow : ℕ → ℝ) (l : List ℕ)
    (s : ImplicitState) :
    (l.foldl (pointStep nVar vol dtFlow) s).res = s.res :=
  foldl_frame (fun s : ImplicitState => s.res)
    (fun s p => pointStep_res nVar vol dtFlow s p) l s

theorem outerFold_resMax (nVar : ℕ) (vol dtFlow : ℕ → ℝ) :
    ∀ (n : ℕ) (s : ImplicitState) (u : ℕ), u < nVar →
      ((List.range n).foldl (pointStep nVar vol dtFlow) s).resMax u
        = s.resMax u + ∑ p ∈ Finset.range n, s.res p u * s.res p u * vol p := by
  intro n
  induction n with
  | zero => intro s u hu; simp
  | succ m ih =>
      intro s u hu
      rw [List.range_succ, List.foldl_append]
      simp only [List.foldl_cons, List.foldl_nil]
      rw [pointStep_resMax, outerFold_res, ih s u hu, if_pos hu,
        Finset.sum_range_succ]
      ring

theorem addSolutionStep_resMax (nVar p : ℕ) (s : ImplicitState) (v : ℕ) :
    (addSolutionStep nVar p s v).resMax = s.resMax := rfl

theorem updateSol_resMax (nVar : ℕ) (l : List ℕ) (s : ImplicitState) :
    (l.foldl (fun s p => (List.range nVar).foldl (addSolutionStep nVar p) s) s).resMax
      = s.resMax :=
  foldl_frame (fun s : ImplicitState => s.resMax)
    (fun s p => foldl_frame (fun s : ImplicitState => s.resMax)
      (fun s v => addSolutionStep_resMax nVar p s v) (List.range nVar) s) l s

/-- C5: after ImplicitEuler_Iteration the reported convergence monitor for
each state component iVar < nVar equals the square root of the sum, over
all domain points, of residual[iVar] squared times that point's
control-volume measure, independent of the accumulator's prior contents
(it is reset to zero at the start of the call). -/
theorem claim_C5_convergence_monitor (nVar nPointDomain : ℕ)
    (vol dtFlow : ℕ → ℝ) (luSgs : (ℕ → ℝ) → (ℕ → ℝ) → ℕ → ℝ)
    (s : ImplicitState) (iVar : ℕ) (h : iVar < nVar) :
    (ImplicitEuler_Iteration nVar nPointDomain vol dtFlow Real.sqrt luSgs
        s).resMax iVar
      = Real.sqrt (∑ p ∈ Finset.range nPointDomain,
          s.res p iVar * s.res p iVar * vol p) := by
  simp only [ImplicitEuler_Iteration]
  rw [range_foldl_updAt (fun rm v => Real.sqrt (rm v))
    (fun rm rm' i hi => by simp only [hi]) nVar _ iVar, if_pos h]
  rw [updateSol_resMax]
  have h2 : ((List.range nPointDomain).foldl (pointStep nVar vol dtFlow)
      (resetResMax nVar s)).resMax iVar
      = (resetResMax nVar s).resMax iVar
        + ∑ p ∈ Finset.range nPointDomain,
            (resetResMax nVar s).res p iVar * (resetResMax nVar s).res p iVar * vol p :=
    outerFold_resMax nVar vol dtFlow nPointDomain (resetResMax nVar s) iVar h
  have hreset : (resetResMax nVar s).resMax iVar = 0 := by
    simp only [resetResMax]
    rw [range_foldl_updAt (fun rm i => 0) (fun rm rm' i hi => rfl) nVar _ iVar,
      if_pos h]
  have hres : (resetResMax nVar s).res = s.res := rfl
  rw [h2, hreset, hres, zero_add]

/-- A small concrete state for evaluating the implicit iteration. -/
def implicitTestState : ImplicitState :=
  { res := fun p _ => (p : ℝ) + 1
    sol := fun _ _ => 0
    resMax := fun _ => 3
    rhs := fun _ => 0
    xsol := fun _ => 0
    jacDiag := fun _ => 0 }

/-- Witness for C5: one variable, two domain points with unit volume. -/
theorem claim_C5_convergence_monitor_witness :
    0 < 1 ∧
    (ImplicitEuler_Iteration 1 2 (fun _ => 1) (fun _ => 1) Real.sqrt
        (fun _ x => x) implicitTestState).resMax 0
      = Real.sqrt (∑ p ∈ Finset.range 2,
          implicitTestState.res p 0 * implicitTestState.res p 0 * 1) :=
  ⟨by decide,
    claim_C5_convergence_monitor 1 2 (fun _ => 1) (fun _ => 1) (fun _ x => x)
      implicitTestState 0 (by decide)⟩

/-- One buffered MPI message of BC_Send_Receive: message tag, destination
domain, and the flattened payload. -/
structure TurbMsg where
  tag : ℕ
  dest : ℤ
  payload : List ℝ

/-- A flattened [iVertex][iVar] buffer, row-major like the C arrays
Buffer_Send_*. -/
def bufferOf (nVar : ℕ) (vertices : List ℕ) (f : ℕ → ℕ → ℝ) : List ℝ :=
  vertices.flatMap (fun p => (List.range nVar).map (f p))

/-- Buffer_Send_Turb: the solution entries of each vertex point. -/
def sendBufferTurb (nVar : ℕ) (vertices : List ℕ) (nodes : ℕ → TurbNode) :
    List ℝ :=
  bufferOf nVar vertices (fun p v => (nodes p).solution v)

/-- Buffer_Send_Turbx / Turby / Turbz: spatial gradient component d of
each vertex point. -/
def sendBufferGrad (nVar d : ℕ) (vertices : List ℕ) (nodes : ℕ → TurbNode) :
    List ℝ :=
  bufferOf nVar vertices (fun p v => (nodes p).gradient v d)

/-- CTurbSolution::BC_Send_Receive, send side (SendRecv > 0): one Bsend of
nVertex*nVar doubles per variable group to destination SendRecv — the
solution under tag 0, gradient components x and y under tags 1 and 2, and
component z under tag 3 exactly when nDim = 3. -/
def BC_Send_Receive_send (nDim nVar : ℕ) (sendRecv : ℤ) (vertices : List ℕ)
    (nodes : ℕ → TurbNode) : List TurbMsg :=
  if 0 < sendRecv then
    [⟨0, sendRecv, sendBufferTurb nVar vertices nodes⟩,
     ⟨1, sendRecv, sendBufferGrad nVar 0 vertices nodes⟩,
     ⟨2, sendRecv, sendBufferGrad nVar 1 vertices nodes⟩]
    ++ (if nDim = 3 then [⟨3, sendRecv, sendBufferGrad nVar 2 vertices nodes⟩]
        else [])
  else []

/-- The blocking receives posted on a receive marker (SendRecv < 0): the
(tag, source domain) pairs in order — tags 0, 1, 2 and, when nDim = 3,
tag 3, all from domain abs(SendRecv). -/
def BC_Send_Receive_recvRequests (nDim : ℕ) (sendRecv : ℤ) : List (ℕ × ℤ) :=
  if sendRecv < 0 then
    [(0, |sendRecv|), (1, |sendRecv|), (2, |sendRecv|)]
    ++ (if nDim = 3 then [(3, |sendRecv|)] else [])
  else []

/-- The per-vertex overwrite of the receive loop: point solution entries
from Buffer_Receive_Turb, gradient components 0 and 1 from Turbx/Turby,
and component 2 from Turbz when nDim = 3. -/
def recvNodeUpdate (nDim nVar : ℕ) (bT bX bY bZ : ℕ → ℕ → ℝ) (iVertex : ℕ)
    (nd : TurbNode) : TurbNode :=
  { nd with
    solution := fun v => if v < nVar then bT iVertex v else nd.solution v
    gradient := fun v d =>
      if v < nVar then
        if d = 0 then bX iVertex v
        else if d = 1 then bY iVertex v
        else if d = 2 ∧ nDim = 3 then bZ iVertex v
        else nd.gradient v d
      else nd.gradient v d }

/-- CTurbSolution::BC_Send_Receive, receive side (SendRecv < 0): after the
blocking receives, the vertex loop overwrites each vertex point's
solution and gradient entries with the received buffer values. -/
def BC_Send_Receive_recv (nDim nVar : ℕ) (sendRecv : ℤ) (vertices : List ℕ)
    (bT bX bY bZ : ℕ → ℕ → ℝ) (nodes : ℕ → TurbNode) : ℕ → TurbNode :=
  if sendRecv < 0 then
    vertices.enum.foldl
      (fun g j => updAt g j.2 (recvNodeUpdate nDim nVar bT bX bY bZ j.1 (g j.2)))
      nodes
  else nodes

theorem foldl_updAt_not_mem {ι α : Type} (key : ι → ℕ) (f : ι → α → α) :
    ∀ (l : List ι) (g : ℕ → α) (p : ℕ), p ∉ l.map key →
      (l.foldl (fun g j => updAt g (key j) (f j (g (key j)))) g) p = g p := by
  intro l
  induction l with
  | nil => intro g p _; rfl
  | cons a t ih =>
      intro g p hp
      simp only [List.map_cons, List.mem_cons, not_or] at hp
      simp only [List.foldl_cons]
      rw [ih _ p hp.2, updAt_other _ _ _ _ hp.1]

theorem foldl_updAt_nodup {ι α : Type} (key : ι → ℕ) (f : ι → α → α) :
    ∀ (l : List ι), (l.map key).Nodup → ∀ (g : ℕ → α) (i : ι), i ∈ l →
      (l.foldl (fun g j => updAt g (key j) (f j (g (key j)))) g) (key i)
        = f i (g (key i)) := by
  intro l
  induction l with
  | nil => intro _ g i hi; simp at hi
  | cons a t ih =>
      intro hnd g i hi
      simp only [List.map_cons, List.nodup_cons] at hnd
      simp only [List.foldl_cons]
      rcases List.mem_cons.mp hi with h | h
      · subst h
        rw [foldl_updAt_not_mem key f t _ _ hnd.1, updAt_same]
      · have hne : key i ≠ key a := by
          intro hh
          exact hnd.1 (hh ▸ List.mem_map.mpr ⟨i, h, rfl⟩)
        rw [ih hnd.2 _ i h, updAt_other _ _ _ _ hne]

theorem bufferOf_length (nVar : ℕ) (f : ℕ → ℕ → ℝ) :
    ∀ vertices : List ℕ,
      (bufferOf nVar vertices f).length = vertices.length * nVar := by
  intro vertices
  induction vertices with
  | nil => simp [bufferOf]
  | cons a t ih =>
      simp only [bufferOf, List.flatMap_cons, List.length_append,
        List.length_map, List.length_range, List.length_cons] at *
      rw [ih]
      ring

theorem bufferOf_get (nVar : ℕ) (f : ℕ → ℕ → ℝ) :
    ∀ (vertices : List ℕ) (iVertex p : ℕ), vertices[iVertex]? = some p →
      ∀ v, v < nVar →
        (bufferOf nVar vertices f).getD (iVertex * nVar + v) 0 = f p v := by
  intro vertices
  induction vertices with
  | nil => intro i p hp; simp at hp
  | cons a t ih =>
      intro i p hp v hv
      cases i with
      | zero =>
          simp only [List.getElem?_cons_zero, Option.some.injEq] at hp
          subst hp
          simp only [bufferOf, List.flatMap_cons, List.getD, Nat.zero_mul,
            Nat.zero_add]
          rw [List.get?_append (by simpa using hv)]
          simp [List.get?_map, List.getElem?_range, hv]
      | succ j =>
          simp only [List.getElem?_cons_succ] at hp
          have harith : (j + 1) * nVar + v = nVar + (j * nVar + v) := by ring
          rw [harith]
          simp only [bufferOf, List.flatMap_cons, List.getD]
          rw [List.get?_append_right (by simp)]
          simpa [bufferOf, List.getD] using ih j p hp v hv

/-- C6: on a send marker (positive tag) BC_Send_Receive produces exactly
the messages [tag 0: solution, tag 1: gradient x, tag 2: gradient y]
plus tag 3 (gradient z) exactly when nDim = 3, each of length
nVertex*nVar, addressed to domain SendRecv, with payload entry
iVertex*nVar+iVar holding the corresponding vertex point's value; on a
receive marker (negative tag) it blocking-receives the same tag sequence
from domain -SendRecv and overwrites each vertex point's solution and
gradient components with the received buffer values. -/
theorem claim_C6_send_receive_protocol (nDim nVar : ℕ) (sendRecv : ℤ)
    (vertices : List ℕ) (nodes : ℕ → TurbNode) (bT bX bY bZ : ℕ → ℕ → ℝ) :
    (0 < sendRecv →
      (BC_Send_Receive_send nDim nVar sendRecv vertices nodes).map TurbMsg.tag
          = [0, 1, 2] ++ (if nDim = 3 then [3] else []) ∧
      (∀ m ∈ BC_Send_Receive_send nDim nVar sendRecv vertices nodes,
        m.dest = sendRecv ∧ m.payload.length = vertices.length * nVar) ∧
      (∀ iVertex p, vertices[iVertex]? = some p → ∀ v, v < nVar →
        (sendBufferTurb nVar vertices nodes).getD (iVertex * nVar + v) 0
            = (nodes p).solution v ∧
        ∀ d, (sendBufferGrad nVar d vertices nodes).getD (iVertex * nVar + v) 0
            = (nodes p).gradient v d)) ∧
    (sendRecv < 0 →
      BC_Send_Receive_recvRequests nDim sendRecv
          = [(0, -sendRecv), (1, -sendRecv), (2, -sendRecv)]
            ++ (if nDim = 3 then [(3, -sendRecv)] else []) ∧
      (vertices.Nodup → ∀ iVertex p, vertices[iVertex]? = some p →
        ∀ v, v < nVar →
          (BC_Send_Receive_recv nDim nVar sendRecv vertices bT bX bY bZ
              nodes p).solution v = bT iVertex v ∧
          (BC_Send_Receive_recv nDim nVar sendRecv vertices bT bX bY bZ
              nodes p).gradient v 0 = bX iVertex v ∧
          (BC_Send_Receive_recv nDim nVar sendRecv vertices bT bX bY bZ
              nodes p).gradient v 1 = bY iVertex v ∧
          (nDim = 3 →
            (BC_Send_Receive_recv nDim nVar sendRecv vertices bT bX bY bZ
              nodes p).gradient v 2 = bZ iVertex v))) := by
  constructor
  · intro hpos
    refine ⟨?_, ?_, ?_⟩
    · by_cases h3 : nDim = 3 <;>
        simp [BC_Send_Receive_send, hpos, h3]
    · intro m hm
      simp only [BC_Send_Receive_send, if_pos hpos] at hm
      rcases List.mem_append.mp hm with h | h
      · simp only [List.mem_cons, List.not_mem_nil, or_false] at h
        rcases h with rfl | rfl | rfl <;>
          exact ⟨rfl, by simp [sendBufferTurb, sendBufferGrad, bufferOf_length]⟩
      · by_cases h3 : nDim = 3
        · rw [if_pos h3] at h
          simp only [List.mem_singleton] at h
          subst h
          exact ⟨rfl, by simp [sendBufferGrad, bufferOf_length]⟩
        · rw [if_neg h3] at h
          simp at h
    · intro iVertex p hp v hv
      exact ⟨bufferOf_get nVar _ vertices iVertex p hp v hv,
        fun d => bufferOf_get nVar _ vertices iVertex p hp v hv⟩
  · intro hneg
    constructor
    · have habs : |sendRecv| = -sendRecv := abs_of_neg hneg
      by_cases h3 : nDim = 3 <;>
        simp [BC_Send_Receive_recvRequests, hneg, h3, habs]
    · intro hnd iVertex p hp v hv
      have hmem : (iVertex, p) ∈ vertices.enum :=
        List.mk_mem_enum_iff_getElem?.mpr hp
      have hkeys : (vertices.enum.map Prod.snd).Nodup := by
        rw [List.enum_map_snd]; exact hnd
      have hfold : (BC_Send_Receive_recv nDim nVar sendRecv vertices
          bT bX bY bZ nodes) p
          = recvNodeUpdate nDim nVar bT bX bY bZ iVertex (nodes p) := by
        simp only [BC_Send_Receive_recv, if_pos hneg]
        exact foldl_updAt_nodup Prod.snd
          (fun j nd => recvNodeUpdate nDim nVar bT bX bY bZ j.1 nd)
          vertices.enum hkeys nodes (iVertex, p) hmem
      refine ⟨?_, ?_, ?_, fun h3 => ?_⟩ <;>
        simp [hfold, recvNodeUpdate, hv]
      simp [*]

/-- Concrete received buffers for evaluating the halo exchange. -/
def recvTestBufT : ℕ → ℕ → ℝ := fun i v => (i : ℝ) + 10 * v + 100

def recvTestBufX : ℕ → ℕ → ℝ := fun i v => (i : ℝ) + 10 * v + 200

def recvTestBufY : ℕ → ℕ → ℝ := fun i v => (i : ℝ) + 10 * v + 300

def recvTestBufZ : ℕ → ℕ → ℝ := fun i v => (i : ℝ) + 10 * v + 400

/-- Witness for C6: the tag sequence of a 3-D send to domain 2, and the
receive-side overwrite of point 5's solution from tag-0 buffer entry
(0, 0). -/
theorem claim_C6_send_receive_protocol_witness :
    (BC_Send_Receive_send 3 1 2 [5] zeroState.node).map TurbMsg.tag
        = [0, 1, 2] ++ (if (3 : ℕ) = 3 then [3] else []) ∧
    (BC_Send_Receive_recv 2 1 (-1) [5] recvTestBufT recvTestBufX
        recvTestBufY recvTestBufZ zeroState.node 5).solution 0
      = recvTestBufT 0 0 :=
  ⟨((claim_C6_send_receive_protocol 3 1 2 [5] zeroState.node recvTestBufT
      recvTestBufX recvTestBufY recvTestBufZ).1 (by decide)).1,
    ((((claim_C6_send_receive_protocol 2 1 (-1) [5] zeroState.node
        recvTestBufT recvTestBufX recvTestBufY recvTestBufZ).2
      (by decide)).2 (by decide) 0 5 rfl 0 (by decide)).1)⟩

end SU2Turb
